
import Mathlib

/-
Verification development for the skimpy kinetic-model core:
  src/skimpy/mechanisms/bi_uni_reversible_hill.py
  src/skimpy/mechanisms/convenience_with_inihibition.py
  src/skimpy/core/kinmodel.py

The mechanisms build sympy expression trees; we model them with an explicit
expression AST `Expr` and give it an executable rational evaluation
semantics `evalE`.  Python dictionaries (insertion ordered) are modelled as
association lists with first-key lookup, in-place update and append on new
keys, exactly matching CPython dict semantics.
-/

set_option autoImplicit false

/-- Symbolic expressions as constructed by the mechanisms through the
symbolic-algebra collaborator (sympy).  Constructors mirror the arithmetic
used by the source; sympy canonicalization preserves the evaluation
semantics `evalE` below. -/
inductive Expr where
| sym : String → Expr
| intC : Int → Expr
| ratC : Rat → Expr
| add : Expr → Expr → Expr
| sub : Expr → Expr → Expr
| mul : Expr → Expr → Expr
| div : Expr → Expr → Expr
| pow : Expr → Expr → Expr
deriving DecidableEq

/-- Rational evaluation of an expression under a binding of symbol names to
rational values.  Division follows the Lean convention x / 0 = 0 and a power
whose exponent is not an integer evaluates to 0; every evaluation performed
in this development stays away from both junk cases (all denominators are
nonzero and all exponents are integers at the chosen inputs). -/
def evalE : Expr → (String → ℚ) → ℚ
| .sym s, ν => ν s
| .intC n, _ => (n : ℚ)
| .ratC q, _ => q
| .add a b, ν => evalE a ν + evalE b ν
| .sub a b, ν => evalE a ν - evalE b ν
| .mul a b, ν => evalE a ν * evalE b ν
| .div a b, ν => evalE a ν / evalE b ν
| .pow a b, ν =>
    let e := evalE b ν
    if e.den = 1 then (evalE a ν) ^ e.num else 0

/-- Association-list lookup: first binding of the key wins (python dict has
unique keys, so this is exact). -/
def alookup {α β : Type} [DecidableEq α] : List (α × β) → α → Option β
| [], _ => none
| (k, v) :: rest, s => if k = s then some v else alookup rest s

/-- Association-list assignment, modelling `d[k] = v` on a python dict:
update in place if the key is present, append otherwise. -/
def aset {α β : Type} [DecidableEq α] : List (α × β) → α → β → List (α × β)
| [], s, e => [(s, e)]
| (k, v) :: rest, s, e => if k = s then (k, e) :: rest else (k, v) :: aset rest s e

/-- Keys of an association list, in insertion order. -/
def akeys {α β : Type} (l : List (α × β)) : List α := l.map Prod.fst

/-- A python dict from species symbols to symbolic expressions. -/
abbrev PyDict := List (String × Expr)

/-- Models the accumulate-or-insert pattern
`if k in d.keys(): d[k] += e else: d[k] = e`
(convenience mechanism) and `d[k] += e` on a key known to be present
(`make_ode_fun`, where the dict is pre-seeded with every key). -/
def dictInsertAdd (d : PyDict) (k : String) (e : Expr) : PyDict :=
  match alookup d k with
  | some old => aset d k (.add old e)
  | none => aset d k e

/-- Folding a list of (key, expression) contributions into a dict with
`dictInsertAdd`. -/
def insertAddList (acc : PyDict) (l : List (String × Expr)) : PyDict :=
  l.foldl (fun d kv => dictInsertAdd d kv.1 kv.2) acc

/-- Evaluation of the entry of a dict at a key (0 if the key is absent; all
uses below establish presence separately). -/
def evalAt (d : PyDict) (s : String) (ν : String → ℚ) : ℚ :=
  match alookup d s with
  | some e => evalE e ν
  | none => 0

namespace BiUniReversibleHill

/-- Bound reactant symbols and parameter expressions of one mechanism
instance, as read off by get_qssa_rate_expression (source lines 98 to 109). -/
structure HillArgs where
  s1 : String
  s2 : String
  p : String
  kms1 : Expr
  kms2 : Expr
  kmp : Expr
  keq : Expr
  vmaxf : Expr
  h : Expr
deriving DecidableEq

/-- Source line 111: `(s1/kms1*s2/kms2+p/kmp)**(h-1)` with python
left-associated arithmetic. -/
def hill_effect (a : HillArgs) : Expr :=
  .pow (.add (.div (.mul (.div (.sym a.s1) a.kms1) (.sym a.s2)) a.kms2)
             (.div (.sym a.p) a.kmp))
       (.sub a.h (.intC 1))

/-- Source line 113: `vmaxf*s1/kms1*s2/kms2*hill_effect`. -/
def fwd_nominator (a : HillArgs) : Expr :=
  .mul (.div (.mul (.div (.mul a.vmaxf (.sym a.s1)) a.kms1) (.sym a.s2)) a.kms2)
       (hill_effect a)

/-- Source line 114: `vmaxf/(keq*kms1*kms2)*p*hill_effect`. -/
def bwd_nominator (a : HillArgs) : Expr :=
  .mul (.mul (.div a.vmaxf (.mul (.mul a.keq a.kms1) a.kms2)) (.sym a.p))
       (hill_effect a)

/-- Source lines 116 to 119:
`1 + (s1/kms1+p/kmp)**h + (s2/kms2+p/kmp)**h + (s1/kms1*s2/kms2+p/kmp)**h
 - 2*p/kmp**h`.
Note the last term: by python operator precedence it parses as
`(2*p)/(kmp**h)`, not as `2*((p/kmp)**h)`. -/
def common_denominator (a : HillArgs) : Expr :=
  .sub (.add (.add (.add (.intC 1)
                         (.pow (.add (.div (.sym a.s1) a.kms1) (.div (.sym a.p) a.kmp)) a.h))
                   (.pow (.add (.div (.sym a.s2) a.kms2) (.div (.sym a.p) a.kmp)) a.h))
             (.pow (.add (.div (.mul (.div (.sym a.s1) a.kms1) (.sym a.s2)) a.kms2)
                         (.div (.sym a.p) a.kmp)) a.h))
       (.div (.mul (.intC 2) (.sym a.p)) (.pow a.kmp a.h))

/-- Source line 121. -/
def forward_rate_expression (a : HillArgs) : Expr :=
  .div (fwd_nominator a) (common_denominator a)

/-- Source line 122. -/
def backward_rate_expression (a : HillArgs) : Expr :=
  .div (bwd_nominator a) (common_denominator a)

/-- Source line 123: `rate_expression = forward - backward`. -/
def rate_expression (a : HillArgs) : Expr :=
  .sub (forward_rate_expression a) (backward_rate_expression a)

/-- Source lines 125 to 128: the stored reaction_rates TabDict. -/
def reaction_rates (a : HillArgs) : List (String × Expr) :=
  [("v_net", rate_expression a), ("v_fwd", forward_rate_expression a),
   ("v_bwd", backward_rate_expression a)]

/-- Source lines 130 to 141: the per-species expressions dict built from a
rate expression: plain dict assignment (no accumulation) for substrate1 and
substrate2 with stoichiometry -1, then for the product with stoichiometry 1,
in that order. -/
def expressions_from_rate (s1 s2 p : String) (rate : Expr) : PyDict :=
  aset (aset (aset [] s1 (.mul (.intC (-1)) rate))
             s2 (.mul (.intC (-1)) rate))
       p (.mul (.intC 1) rate)

/-- Source lines 85 to 143: get_qssa_rate_expression stores reaction_rates
and the expressions dict derived from rate_expression.  (The python method
returns None; the stored attributes are the result modelled here.) -/
def get_qssa_rate_expression (a : HillArgs) : (List (String × Expr)) × PyDict :=
  (reaction_rates a, expressions_from_rate a.s1 a.s2 a.p (rate_expression a))

/-- Source lines 145 to 161: update_qssa_rate_expression re-assigns the same
per-species entries into the existing self.expressions dict, reading the
stored v_net. -/
def update_qssa_rate_expression (s1 s2 p : String) (v_net : Expr) (prev : PyDict) : PyDict :=
  aset (aset (aset prev s1 (.mul (.intC (-1)) v_net))
             s2 (.mul (.intC (-1)) v_net))
       p (.mul (.intC 1) v_net)

end BiUniReversibleHill

/-- Modelled from the spec: the common-denominator form stated in section
4.2.1 of the spec, whose correction term is `2*(p/kmp)**h`, i.e. (p/kmp)
raised to the power h and doubled.  This definition follows the words of
the spec and exists only to be compared against the construction in the
source (claim C1); the other three terms coincide with the source. -/
def specCommonDenominator (a : BiUniReversibleHill.HillArgs) : Expr :=
  .sub (.add (.add (.add (.intC 1)
                         (.pow (.add (.div (.sym a.s1) a.kms1) (.div (.sym a.p) a.kmp)) a.h))
                   (.pow (.add (.div (.sym a.s2) a.kms2) (.div (.sym a.p) a.kmp)) a.h))
             (.pow (.add (.div (.mul (.div (.sym a.s1) a.kms1) (.sym a.s2)) a.kms2)
                         (.div (.sym a.p) a.kmp)) a.h))
       (.mul (.intC 2) (.pow (.div (.sym a.p) a.kmp) a.h))

/-
Convenience kinetics with competitive inhibition
(src/skimpy/mechanisms/convenience_with_inihibition.py).
The generated class is shaped by a signed stoichiometry list: each negative
entry yields a substrate role (stoichiometry stored as float(s), negative),
each positive entry a product role (positive), and each inhibitor a role
without stoichiometry.  A mechanism instance binds each role to a species
symbol and a Michaelis (or inhibition) parameter expression.
-/

namespace ConvenienceInhibited

/-- One bound substrate or product role: its species symbol, its km
parameter expression, and its signed stoichiometry (stored as a float by the
source, hence a rational here; negative for substrates, positive for
products). -/
structure ConvReactant where
  sym : String
  km : Expr
  stoich : ℚ
deriving DecidableEq

/-- One bound inhibitor role: its species symbol and its ki parameter
expression. -/
structure ConvInhibitor where
  sym : String
  ki : Expr
deriving DecidableEq

/-- `int(abs(stoich))`: the loop bound used for the denominator terms. -/
def stoichCount (q : ℚ) : ℕ := (Int.floor |q|).toNat

/-- Source lines 151 to 156 and 165 to 170: the per-species denominator
term `1 + sum over alpha in range(n) of (x/km)**(alpha+1)`, built by the
python loop in increasing alpha order. -/
def den_term (x km : Expr) (n : ℕ) : Expr :=
  (List.range n).foldl (fun d α => .add d (.pow (.div x km) (.intC (α + 1)))) (.intC 1)

/-- Source lines 143 to 188: the rate-law construction of
get_qssa_rate_expression, returning (v_net, v_fwd, v_bwd).  The folds follow
the three python loops: substrates (denominator product, forward numerator,
backward km factors), then products (denominator product, backward species
factors), then inhibitors (additive i/ki terms).  Exponents on species and
km factors are the float `abs(stoich)` and `-1*abs(stoich)`. -/
def rates (vmaxf keq : Expr) (subs prods : List ConvReactant)
    (inhs : List ConvInhibitor) : Expr × Expr × Expr :=
  let sAcc := subs.foldl
    (fun (acc : Expr × Expr × Expr) r =>
      (.mul acc.1 (den_term (.sym r.sym) r.km (stoichCount r.stoich)),
       .mul acc.2.1 (.pow (.div (.sym r.sym) r.km) (.ratC |r.stoich|)),
       .mul acc.2.2 (.pow r.km (.ratC (-|r.stoich|)))))
    ((.intC 1), vmaxf, .div vmaxf keq)
  let pAcc := prods.foldl
    (fun (acc : Expr × Expr) r =>
      (.mul acc.1 (den_term (.sym r.sym) r.km (stoichCount r.stoich)),
       .mul acc.2 (.pow (.sym r.sym) (.ratC |r.stoich|))))
    ((.intC 1), sAcc.2.2)
  let inhD := inhs.foldl (fun d i => .add d (.div (.sym i.sym) i.ki)) (.intC 0)
  let common_denominator : Expr := .add (.sub (.add sAcc.1 pAcc.1) (.intC 1)) inhD
  let forward_rate_expression : Expr := .div sAcc.2.1 common_denominator
  let backward_rate_expression : Expr := .div pAcc.2 common_denominator
  (.sub forward_rate_expression backward_rate_expression,
   forward_rate_expression, backward_rate_expression)

/-- Source lines 195 to 213: expressions dict built from a rate expression:
each substrate then each product contributes `stoich * rate`, accumulating
with `+=` when the species symbol already has an entry. -/
def expressions_from_rate (subs prods : List ConvReactant) (rate : Expr) : PyDict :=
  prods.foldl (fun d r => dictInsertAdd d r.sym (.mul (.ratC r.stoich) rate))
    (subs.foldl (fun d r => dictInsertAdd d r.sym (.mul (.ratC r.stoich) rate)) [])

/-- Source lines 122 to 216: get_qssa_rate_expression stores reaction_rates
and the expressions dict derived from v_net. -/
def get_qssa_rate_expression (vmaxf keq : Expr) (subs prods : List ConvReactant)
    (inhs : List ConvInhibitor) : (List (String × Expr)) × PyDict :=
  let r := rates vmaxf keq subs prods inhs
  ([("v_net", r.1), ("v_fwd", r.2.1), ("v_bwd", r.2.2)],
   expressions_from_rate subs prods r.1)

/-- Source lines 218 to 243: update_qssa_rate_expression rebuilds a fresh
expressions dict with the same two accumulation loops, reading the stored
v_net.  The assignment `self.expressions = expressions` sits inside the
product loop: because `expressions` is one aliased dict object, whenever at
least one product exists the stored dict is the fully built one; with no
products the assignment never runs and self.expressions keeps its previous
value. -/
def update_qssa_rate_expression (subs prods : List ConvReactant) (v_net : Expr)
    (prev : PyDict) : PyDict :=
  if prods.isEmpty then prev else expressions_from_rate subs prods v_net

end ConvenienceInhibited

/-- Python exception classes raised by the modelled code: the generic
`Exception` used by KineticModel.add_reaction, the builtin
`NotImplementedError` used for unsupported capabilities (the spec calls this
error NotSupportedError), and `KeyError`. -/
inductive PyError where
| exception : String → PyError
| notImplementedError : PyError
| keyError : String → PyError
deriving DecidableEq

/-- The capability probe available to calling code: an
`except NotImplementedError` handler catches exactly this class.  True only
on the capability error, false on the generic Exception and on KeyError. -/
def PyError.is_capability_gap : PyError → Bool
| .notImplementedError => true
| .exception _ => false
| .keyError _ => false

/-- Source bi_uni_reversible_hill.py lines 167 to 168: immediately raises
NotImplementedError. -/
def BiUniReversibleHill.get_full_rate_expression : Except PyError Unit :=
  .error .notImplementedError

/-- Source bi_uni_reversible_hill.py lines 170 to 171: immediately raises
NotImplementedError. -/
def BiUniReversibleHill.calculate_rate_constants : Except PyError Unit :=
  .error .notImplementedError

/-- Source convenience_with_inihibition.py lines 249 to 250: immediately
raises NotImplementedError. -/
def ConvenienceInhibited.get_full_rate_expression : Except PyError Unit :=
  .error .notImplementedError

/-- Source convenience_with_inihibition.py lines 252 to 253: immediately
raises NotImplementedError. -/
def ConvenienceInhibited.calculate_rate_constants : Except PyError Unit :=
  .error .notImplementedError

/-
KineticModel and the ODE-function assembly (src/skimpy/core/kinmodel.py).
Each reaction contributes the data that make_ode_fun reads from its
mechanism: the per-species expressions dict of the QSSA rate law, and the
(always failing, for the two mechanisms above) full rate law.  The
per-reaction parameter dictionaries merged by join_dicts (a utility not
under src/ and touched by no claim) are omitted; the compiled ODEFunction is
modelled by its ordered variable list and its final expression mapping.
-/

/-- The simulation types dispatched on by make_ode_fun (source lines
111 to 122). -/
inductive SimType where
| QSSA : SimType
| tQSSA : SimType
| full : SimType
deriving DecidableEq

/-- What make_ode_fun reads from one reaction. -/
structure ReactionData where
  qssa : PyDict
  full : Except PyError PyDict

/-- The compiled ODE function: the ordered list of distinct state variables
and the aggregated (and boundary-adjusted) expression mapping. -/
abbrev ODEFunction := List String × PyDict

/-- Source lines 127 to 135: flatten the key lists of all reaction
expression dicts and keep the distinct symbols.  (The python code routes
this through `set`, whose iteration order is unspecified; we fix the
first-occurrence order, which only affects the ordering of the variable
list, not any claim below.) -/
def odeVariables (all_expr : List PyDict) : List String :=
  ((all_expr.map akeys).flatten).eraseDups

/-- Source lines 137 to 143: `expr = dict.fromkeys(variables, 0.0)` and the
mass-balance loop `expr[k] += this_reaction[k]` over every reaction and
every key of its expressions dict.  Every key hit by the loop is present in
the seeded dict, so the absent-key branch of dictInsertAdd is unreachable
(python would raise KeyError there). -/
def aggregateExpressions (all_expr : List PyDict) : PyDict :=
  let expr0 : PyDict := (odeVariables all_expr).map (fun k => (k, Expr.ratC 0))
  all_expr.foldl (fun acc d => insertAddList acc d) expr0

/-- Source lines 145 to 148: boundary conditions act on the aggregated
dict, in registration order, after the mass-balance loop has finished. -/
def applyBoundaries (bs : List (PyDict → PyDict)) (d : PyDict) : PyDict :=
  bs.foldl (fun m b => b m) d

/-- Source lines 124 to 151 specialized to the QSSA data of the reactions:
aggregate, apply boundaries, return the ODEFunction. -/
def buildOdeQssa (all_expr : List PyDict) (bs : List (PyDict → PyDict)) : ODEFunction :=
  (odeVariables all_expr, applyBoundaries bs (aggregateExpressions all_expr))

/-- Source lines 108 to 151: make_ode_fun dispatches on sim_type.  The
tQSSA branch raises NotImplementedError before touching any reaction; the
full branch asks every mechanism for its full rate expression (which the
mechanisms above refuse). -/
def make_ode_fun (sim_type : SimType) (reactions : List ReactionData)
    (bs : List (PyDict → PyDict)) : Except PyError ODEFunction :=
  match sim_type with
  | .QSSA => .ok (buildOdeQssa (reactions.map (fun r => r.qssa)) bs)
  | .tQSSA => .error .notImplementedError
  | .full => do
      let all_expr ← reactions.mapM (fun r => r.full)
      .ok (buildOdeQssa all_expr bs)

/-- The model state (source lines 44 to 52): named reactions in insertion
order, boundary conditions, the dirty flag `_modifed` (source spelling) and
the cached `ode_fun` attribute (absent before the first build). -/
structure KineticModel where
  reactions : List (String × ReactionData)
  boundaries : List (PyDict → PyDict)
  modifed : Bool
  ode_fun : Option ODEFunction

/-- Source lines 59 to 70: add_reaction raises a generic Exception on a
duplicate name, otherwise appends the reaction and sets the dirty flag. -/
def KineticModel.add_reaction (m : KineticModel) (name : String) (r : ReactionData) :
    Except PyError KineticModel :=
  if name ∈ akeys m.reactions then
    .error (.exception ("Reaction " ++ name ++ " already exists in the model"))
  else
    .ok { m with reactions := m.reactions ++ [(name, r)], modifed := true }

/-- Source lines 87 to 106 (the caching guard of solve_ode, lines 95 to
98): the ode_fun is rebuilt only when `self._modifed and
not(hasattr(self, 'ode_fun'))` holds, in which case the dirty flag is
cleared.  Returns the updated model state together with the ode_fun handed
to the solver (none models the AttributeError raised when no ode_fun
exists); the subsequent integration (lines 100 to 106) is the module-level
solve_ode modelled further below. -/
def KineticModel.solve_ode (m : KineticModel) (sim_type : SimType) :
    KineticModel × Option ODEFunction :=
  if m.modifed && m.ode_fun.isNone then
    match make_ode_fun sim_type (m.reactions.map (fun r => r.2)) m.boundaries with
    | .ok f => ({ m with ode_fun := some f, modifed := false }, some f)
    | .error _ => (m, none)
  else
    (m, m.ode_fun)

/-
The integration loop (src/skimpy/core/kinmodel.py, lines 169 to 181).
The scipy integrator is an external collaborator; each call
`solver.integrate(time_int[1], step=True)` advances the solver by one
internally chosen step to a new state (t, y) and success flag.  We model
the integrator by the finite trace of states its successive integrate
calls produce; the loop consumes that trace.
-/

/-- The observable state of the scipy ode solver: current time, current
state vector, and the success flag reported by `successful()`. -/
structure SolverState where
  t : ℚ
  y : List ℚ
  ok : Bool
deriving DecidableEq

/-- Result of the integration loop: recorded times, recorded states, the
final solver state, and whether the loop exited because its condition
became false (`cond_stop = true`, the only exit the python loop has) or
because the modelled trace ran out (`cond_stop = false`, a model artifact
with no python counterpart). -/
structure SolveResult where
  t_sol : List ℚ
  y_sol : List (List ℚ)
  final : SolverState
  cond_stop : Bool
deriving DecidableEq

/-- Source lines 176 to 179: `while solver.t <= time_int[1] and
solver.successful(): integrate one step, then append solver.t and solver.y`
(the append happens even when the step just taken failed or crossed the end
time). -/
def solve_ode_loop (t1 : ℚ) : List SolverState → SolverState → SolveResult
| [], s =>
    if s.t ≤ t1 ∧ s.ok = true then ⟨[], [], s, false⟩ else ⟨[], [], s, true⟩
| s' :: rest, s =>
    if s.t ≤ t1 ∧ s.ok = true then
      let r := solve_ode_loop t1 rest s'
      ⟨s'.t :: r.t_sol, s'.y :: r.y_sol, r.final, r.cond_stop⟩
    else ⟨[], [], s, true⟩

/-- Source lines 169 to 181: set the initial value (a fresh solver reports
successful), seed t_sol and y_sol with the initial time and concentrations,
run the loop, return the accumulated trajectory.  The python function
returns only (t_sol, y_sol); final and cond_stop are model bookkeeping. -/
def solve_ode (steps : List SolverState) (time_int : ℚ × ℚ)
    (initial_concentrations : List ℚ) : SolveResult :=
  let s0 : SolverState := ⟨time_int.1, initial_concentrations, true⟩
  let r := solve_ode_loop time_int.2 steps s0
  ⟨time_int.1 :: r.t_sol, initial_concentrations :: r.y_sol, r.final, r.cond_stop⟩

/-- The pair actually returned by the python function (source line 181). -/
def solve_ode_ret (steps : List SolverState) (time_int : ℚ × ℚ)
    (initial_concentrations : List ℚ) : List ℚ × List (List ℚ) :=
  let r := solve_ode steps time_int initial_concentrations
  (r.t_sol, r.y_sol)

/-
The convenience-mechanism factory
(src/skimpy/mechanisms/convenience_with_inihibition.py, lines 41 to 56 and
255 to 257).  The factory builds the lookup name
`"Convenience" + "_<key>"` (lines 49 to 51) and checks it against the
dictionary of all existing KineticMechanism subclasses (lines 53 to 54).
The class it creates on a miss, however, is the class statement
`ConvenienceInhibited` (line 56), and line 255 renames that class to
`"ConvenienceInhibited" + "_<key>"`, which is the name under which it
appears in the subclass dictionary of every later call.  The lookup name
and the registered name carry different stems.
-/

/-- Modelled from the spec: `stringify_stoichiometry`
(skimpy/mechanisms/utils.py, not under src/) produces the canonical string
encoding of the stoichiometry and inhibitor multiplicities used in the
generated class names; any injective encoding serves the claims, so the
lists are printed verbatim. -/
def stringify_stoichiometry (stoichiometry inihbitor_stoichiometry : List ℤ) : String :=
  toString stoichiometry ++ "_" ++ toString inihbitor_stoichiometry

/-- Modelled from the spec: `make_subclasses_dict` (skimpy/utils/general.py,
not under src/) returns the registry of all existing KineticMechanism
subclasses keyed by class name (the source tests
`new_class_name in ALL_MECHANISM_SUBCLASSES.keys()` against it).  Class
objects are identified here by natural numbers; a freshly created class
appears in the registry of every later call under its (possibly renamed)
class name. -/
abbrev MechRegistry := List (String × ℕ)

/-- Source lines 41 to 56 and 255 to 257: compute the lookup name
`"Convenience_<key>"` and return the class registered under it when
present; otherwise create the ConvenienceInhibited class and return it,
renamed (line 255) to `"ConvenienceInhibited_<key>"`, the name under which
it is registered from then on. -/
def make_convenience_with_inhibition (reg : MechRegistry)
    (stoichiometry inihbitor_stoichiometry : List ℤ) : ℕ × MechRegistry :=
  let new_class_name :=
    "Convenience" ++ "_" ++ stringify_stoichiometry stoichiometry inihbitor_stoichiometry
  match alookup reg new_class_name with
  | some c => (c, reg)
  | none =>
      (reg.length,
       reg ++ [("ConvenienceInhibited" ++ "_"
                  ++ stringify_stoichiometry stoichiometry inihbitor_stoichiometry,
                reg.length)])

/-- A fully symbolic Hill instance: every reactant and every parameter is
bound to its own symbol. -/
def hillArgsC1 : BiUniReversibleHill.HillArgs :=
  { s1 := "s1", s2 := "s2", p := "p",
    kms1 := .sym ("kms1"), kms2 := .sym ("kms2"), kmp := .sym ("kmp"),
    keq := .sym ("keq"), vmaxf := .sym ("vmaxf"), h := .sym ("h") }

/-- The binding refuting claim C1: s1 = s2 = kms1 = kms2 = keq = vmaxf = 1,
p = kmp = 2, h = 2. -/
def bindC1 : String → ℚ := fun s =>
  if s = "p" then 2 else if s = "kmp" then 2 else if s = "h" then 2 else 1

/-- The Hill instance of concrete scenario 1 of the spec (claim C6), with
parameter symbols named as in the source parameter set. -/
def hillArgsC6 : BiUniReversibleHill.HillArgs :=
  { s1 := "s1", s2 := "s2", p := "p",
    kms1 := .sym ("km_substrate1"), kms2 := .sym ("km_substrate2"),
    kmp := .sym ("km_product"), keq := .sym ("k_equilibrium"),
    vmaxf := .sym ("vmax_forward"), h := .sym ("hill_coefficient") }

/-- The binding of claim C6: vmax_forward = 10, k_equilibrium = 10^6, every
km and the hill coefficient 1, s1 = s2 = 2, p = 0 (vmax_backward does not
occur in the stored expressions). -/
def bindC6 : String → ℚ := fun s =>
  if s = "s1" then 2 else if s = "s2" then 2 else if s = "p" then 0
  else if s = "k_equilibrium" then 1000000
  else if s = "vmax_forward" then 10 else 1

def rdC3a : ReactionData :=
  { qssa := [("A", Expr.sym ("x"))], full := .error .notImplementedError }

def rdC3b : ReactionData :=
  { qssa := [("B", Expr.sym ("y"))], full := .error .notImplementedError }

/-- The freshly constructed model of the C3 scenario (dirty, no cached
ode_fun). -/
def modelC3 : KineticModel :=
  { reactions := [("r1", rdC3a)], boundaries := [], modifed := true, ode_fun := none }

/-- The ode_fun the first solve builds for the C3 scenario. -/
def odeC3 : ODEFunction := buildOdeQssa [rdC3a.qssa] []

/-- The model state after the first solve and the successful add of r2. -/
def modelC3' : KineticModel :=
  { reactions := [("r1", rdC3a), ("r2", rdC3b)], boundaries := [],
    modifed := true, ode_fun := some odeC3 }

/-- A Hill instance whose substrate1 and product are bound to the same
species symbol X (numeric parameters: kms1 = kms2 = kmp = 1, keq = 2,
vmaxf = 10, h = 1). -/
def hillArgsC5 : BiUniReversibleHill.HillArgs :=
  { s1 := "X", s2 := "Y", p := "X",
    kms1 := .intC 1, kms2 := .intC 1, kmp := .intC 1,
    keq := .intC 2, vmaxf := .intC 10, h := .intC 1 }

/-- The binding refuting claim C5: X = 2, Y = 1. -/
def bindC5 : String → ℚ := fun s => if s = "X" then 2 else if s = "Y" then 1 else 0

/-- Two reactions both producing species A; the witness reaction dicts. -/
def allExprC2 : List PyDict := [[("A", .intC 1)], [("A", .intC 2), ("B", .intC 3)]]

/-- A trace whose single step crosses the end time successfully. -/
def stepsC8ok : List SolverState := [⟨11, [5], true⟩]

/-- A trace whose single step reaches the same state but reports solver
failure. -/
def stepsC8fail : List SolverState := [⟨11, [5], false⟩]

theorem akeys_nil {α β : Type} : akeys ([] : List (α × β)) = [] := rfl

theorem akeys_cons {α β : Type} (k : α) (v : β) (tl : List (α × β)) :
    akeys ((k, v) :: tl) = k :: akeys tl := rfl

theorem alookup_aset_self {α β : Type} [DecidableEq α] (d : List (α × β)) (k : α) (e : β) :
    alookup (aset d k e) k = some e := by
  induction d with
  | nil => simp [aset, alookup]
  | cons hd tl ih =>
      obtain ⟨k', v'⟩ := hd
      by_cases h : k' = k
      · simp [aset, h, alookup]
      · simp [aset, h, alookup, ih]

theorem alookup_aset_of_ne {α β : Type} [DecidableEq α] (d : List (α × β)) (k s : α) (e : β)
    (h : k ≠ s) : alookup (aset d k e) s = alookup d s := by
  induction d with
  | nil => simp [aset, alookup, h]
  | cons hd tl ih =>
      obtain ⟨k', v'⟩ := hd
      by_cases h' : k' = k
      · subst h'
        simp [aset, alookup, h]
      · simp [aset, h', alookup, ih]

theorem mem_akeys_iff_isSome {α β : Type} [DecidableEq α] (d : List (α × β)) (s : α) :
    s ∈ akeys d ↔ (alookup d s).isSome := by
  induction d with
  | nil => simp [akeys_nil, alookup]
  | cons hd tl ih =>
      obtain ⟨k', v'⟩ := hd
      by_cases h : k' = s
      · simp [akeys_cons, alookup, h]
      · rw [akeys_cons, List.mem_cons, alookup]
        simp only [h, if_false, ih]
        constructor
        · rintro (hc | hc)
          · exact absurd hc.symm h
          · exact hc
        · exact Or.inr

theorem mem_akeys_aset {α β : Type} [DecidableEq α] (d : List (α × β)) (k s : α) (e : β)
    (h : s ∈ akeys d) : s ∈ akeys (aset d k e) := by
  induction d with
  | nil => simp [akeys_nil] at h
  | cons hd tl ih =>
      obtain ⟨k', v'⟩ := hd
      by_cases h' : k' = k
      · simpa [aset, h', akeys_cons] using h
      · rw [akeys_cons, List.mem_cons] at h
        rcases h with h | h
        · simp [aset, h', akeys_cons, h]
        · simp only [aset, h', if_false, akeys_cons, List.mem_cons]
          exact Or.inr (ih h)

theorem alookup_insertAdd_of_ne (d : PyDict) (k s : String) (e : Expr) (h : k ≠ s) :
    alookup (dictInsertAdd d k e) s = alookup d s := by
  unfold dictInsertAdd
  cases alookup d k with
  | none => exact alookup_aset_of_ne d k s e h
  | some old => exact alookup_aset_of_ne d k s (.add old e) h

theorem mem_akeys_insertAdd (d : PyDict) (k s : String) (e : Expr) (h : s ∈ akeys d) :
    s ∈ akeys (dictInsertAdd d k e) := by
  unfold dictInsertAdd
  cases alookup d k with
  | none => exact mem_akeys_aset d k s e h
  | some old => exact mem_akeys_aset d k s (.add old e) h

theorem insertAddList_append (acc : PyDict) (l1 l2 : List (String × Expr)) :
    insertAddList acc (l1 ++ l2) = insertAddList (insertAddList acc l1) l2 := by
  simp [insertAddList, List.foldl_append]

theorem insertAddList_cons (acc : PyDict) (kv : String × Expr) (l : List (String × Expr)) :
    insertAddList acc (kv :: l) = insertAddList (dictInsertAdd acc kv.1 kv.2) l := by
  simp [insertAddList]

theorem alookup_insertAddList_of_not_mem (l : List (String × Expr)) (acc : PyDict) (s : String)
    (h : s ∉ akeys l) : alookup (insertAddList acc l) s = alookup acc s := by
  induction l generalizing acc with
  | nil => simp [insertAddList]
  | cons kv tl ih =>
      obtain ⟨k, e⟩ := kv
      rw [akeys_cons, List.mem_cons] at h
      push_neg at h
      rw [insertAddList_cons]
      rw [ih _ h.2]
      exact alookup_insertAdd_of_ne acc k s e (Ne.symm h.1)

theorem mem_akeys_insertAddList (l : List (String × Expr)) (acc : PyDict) (s : String)
    (h : s ∈ akeys acc) : s ∈ akeys (insertAddList acc l) := by
  induction l generalizing acc with
  | nil => simpa [insertAddList] using h
  | cons kv tl ih =>
      rw [insertAddList_cons]
      exact ih _ (mem_akeys_insertAdd acc kv.1 s kv.2 h)

/-- The evaluated entry of a key after folding in one reaction dict equals
its previous evaluated entry plus the evaluated contribution of that dict
(its unique binding of the key, if any). -/
theorem evalAt_insertAddList (l : List (String × Expr)) (acc : PyDict) (s : String)
    (ν : String → ℚ) (hnd : (akeys l).Nodup) (hmem : s ∈ akeys acc) :
    evalAt (insertAddList acc l) s ν =
      evalAt acc s ν + (match alookup l s with | some e => evalE e ν | none => 0) := by
  induction l generalizing acc with
  | nil => simp [insertAddList, alookup]
  | cons kv tl ih =>
      obtain ⟨k, e⟩ := kv
      rw [akeys_cons, List.nodup_cons] at hnd
      rw [insertAddList_cons]
      by_cases hk : k = s
      · subst hk
        obtain ⟨old, hold⟩ := Option.isSome_iff_exists.mp ((mem_akeys_iff_isSome acc k).mp hmem)
        have hset : dictInsertAdd acc k e = aset acc k (.add old e) := by
          simp [dictInsertAdd, hold]
        have htl : alookup (insertAddList (dictInsertAdd acc k e) tl) k =
            alookup (dictInsertAdd acc k e) k :=
          alookup_insertAddList_of_not_mem tl _ k hnd.1
        rw [hset] at htl
        have hfin : alookup (insertAddList (aset acc k (.add old e)) tl) k =
            some (.add old e) := by
          rw [htl, alookup_aset_self]
        have halk : alookup ((k, e) :: tl) k = some e := by simp [alookup]
        simp only [evalAt, hset, hfin, hold, halk, evalE]
      · have hmem' : s ∈ akeys (dictInsertAdd acc k e) := mem_akeys_insertAdd acc k s e hmem
        rw [ih _ hnd.2 hmem']
        have hsame : evalAt (dictInsertAdd acc k e) s ν = evalAt acc s ν := by
          simp [evalAt, alookup_insertAdd_of_ne acc k s e hk]
        rw [hsame]
        simp [alookup, hk]

/-
Reversible Hill bi-substrate/uni-product mechanism
(src/skimpy/mechanisms/bi_uni_reversible_hill.py).
Reactant roles substrate1, substrate2, product are bound to species symbols
(strings); the kinetic parameters are arbitrary expressions (symbols before
parametrization, numeric constants after).
-/

theorem alookup_append_singleton {α β : Type} [DecidableEq α] (l : List (α × β)) (k : α) (v : β)
    (h : alookup l k = none) : alookup (l ++ [(k, v)]) k = some v := by
  induction l with
  | nil => simp [alookup]
  | cons hd tl ih =>
      obtain ⟨k', v'⟩ := hd
      by_cases hk : k' = k
      · simp [alookup, hk] at h
      · simp only [List.cons_append, alookup, hk, if_false] at h ⊢
        exact ih h

/-
Concrete instances used by the claims about the reversible Hill mechanism.
-/

/-- Claim C1 (code_bug evidence): at the binding above, the denominator the
code stores evaluates to 12 while the form stated by the spec (with
correction term `2*(p/kmp)**h`) evaluates to 11, because the code term
`2*p/kmp**h` parses as `(2*p)/(kmp**h)`.  The two agree only where
`kmp**(h-1) = 1` (for example h = 1 or kmp = 1). -/
theorem claim_C1_denominator_precedence :
    evalE (BiUniReversibleHill.common_denominator hillArgsC1) bindC1 = 12 ∧
    evalE (specCommonDenominator hillArgsC1) bindC1 = 11 ∧ (11 : ℚ) < 12 := by
  have hs1 : bindC1 ("s1") = 1 := by decide
  have hs2 : bindC1 ("s2") = 1 := by decide
  have hp : bindC1 ("p") = 2 := by decide
  have hkms1 : bindC1 ("kms1") = 1 := by decide
  have hkms2 : bindC1 ("kms2") = 1 := by decide
  have hkmp : bindC1 ("kmp") = 2 := by decide
  have hh : bindC1 ("h") = 2 := by decide
  refine ⟨?_, ?_, by norm_num⟩ <;>
  · simp only [BiUniReversibleHill.common_denominator, specCommonDenominator, hillArgsC1,
      evalE, hs1, hs2, hp, hkms1, hkms2, hkmp, hh]
    norm_num

/-- Claim C6 counterexample: at the stated inputs the stored v_fwd and
v_net evaluate to 40/9, not approximately 10/13 (the distance exceeds 3, so
no reasonable tolerance reads 40/9 as approximately 10/13). -/
theorem claim_C6_counterexample :
    evalE (BiUniReversibleHill.forward_rate_expression hillArgsC6) bindC6 = 40 / 9 ∧
    evalE (BiUniReversibleHill.rate_expression hillArgsC6) bindC6 = 40 / 9 ∧
    (3 : ℚ) < |40 / 9 - 10 / 13| := by
  have hs1 : bindC6 ("s1") = 2 := by decide
  have hs2 : bindC6 ("s2") = 2 := by decide
  have hp : bindC6 ("p") = 0 := by decide
  have hkms1 : bindC6 ("km_substrate1") = 1 := by decide
  have hkms2 : bindC6 ("km_substrate2") = 1 := by decide
  have hkmp : bindC6 ("km_product") = 1 := by decide
  have hkeq : bindC6 ("k_equilibrium") = 1000000 := by decide
  have hvm : bindC6 ("vmax_forward") = 10 := by decide
  have hh : bindC6 ("hill_coefficient") = 1 := by decide
  refine ⟨?_, ?_, by rw [abs_of_pos] <;> norm_num⟩ <;>
  · simp only [BiUniReversibleHill.forward_rate_expression,
      BiUniReversibleHill.rate_expression, BiUniReversibleHill.backward_rate_expression,
      BiUniReversibleHill.fwd_nominator, BiUniReversibleHill.bwd_nominator,
      BiUniReversibleHill.hill_effect, BiUniReversibleHill.common_denominator, hillArgsC6,
      evalE, hs1, hs2, hp, hkms1, hkms2, hkmp, hkeq, hvm, hh]
    norm_num

/-- Claim C6 as amended: at the stated inputs the stored expressions
evaluate exactly to v_fwd = 40/9, v_bwd = 0, v_net = 40/9 (the denominator
is 1 + 2 + 2 + 4 = 9 and the forward numerator 10*2*2 = 40). -/
theorem claim_C6_exact_values :
    evalE (BiUniReversibleHill.forward_rate_expression hillArgsC6) bindC6 = 40 / 9 ∧
    evalE (BiUniReversibleHill.backward_rate_expression hillArgsC6) bindC6 = 0 ∧
    evalE (BiUniReversibleHill.rate_expression hillArgsC6) bindC6 = 40 / 9 := by
  have hs1 : bindC6 ("s1") = 2 := by decide
  have hs2 : bindC6 ("s2") = 2 := by decide
  have hp : bindC6 ("p") = 0 := by decide
  have hkms1 : bindC6 ("km_substrate1") = 1 := by decide
  have hkms2 : bindC6 ("km_substrate2") = 1 := by decide
  have hkmp : bindC6 ("km_product") = 1 := by decide
  have hkeq : bindC6 ("k_equilibrium") = 1000000 := by decide
  have hvm : bindC6 ("vmax_forward") = 10 := by decide
  have hh : bindC6 ("hill_coefficient") = 1 := by decide
  refine ⟨?_, ?_, ?_⟩ <;>
  · simp only [BiUniReversibleHill.forward_rate_expression,
      BiUniReversibleHill.rate_expression, BiUniReversibleHill.backward_rate_expression,
      BiUniReversibleHill.fwd_nominator, BiUniReversibleHill.bwd_nominator,
      BiUniReversibleHill.hill_effect, BiUniReversibleHill.common_denominator, hillArgsC6,
      evalE, hs1, hs2, hp, hkms1, hkms2, hkmp, hkeq, hvm, hh]
    norm_num

/-- Claim C9: the unimplemented capabilities fail immediately with
NotImplementedError (the capability error the spec names
NotSupportedError): the full rate expression and the rate-constant
back-calculation of both mechanism families, and make_ode_fun for tQSSA
(which raises before touching any reaction).  The error is a distinct
class, distinguishable from the generic Exception used for duplicate
reactions and from KeyError. -/
theorem claim_C9_not_supported :
    BiUniReversibleHill.get_full_rate_expression = .error .notImplementedError ∧
    BiUniReversibleHill.calculate_rate_constants = .error .notImplementedError ∧
    ConvenienceInhibited.get_full_rate_expression = .error .notImplementedError ∧
    ConvenienceInhibited.calculate_rate_constants = .error .notImplementedError ∧
    (∀ (reactions : List ReactionData) (bs : List (PyDict → PyDict)),
      make_ode_fun .tQSSA reactions bs = .error .notImplementedError) ∧
    PyError.notImplementedError.is_capability_gap = true ∧
    (∀ msg : String, (PyError.exception msg).is_capability_gap = false) ∧
    (∀ msg : String, (PyError.keyError msg).is_capability_gap = false) :=
  ⟨rfl, rfl, rfl, rfl, fun _ _ => rfl, rfl, fun _ => rfl, fun _ => rfl⟩

/-- Claim C7 (code_bug evidence): the lookup name carries the stem
`Convenience` while the created class is registered under the stem
`ConvenienceInhibited`, so the registry check never hits.  Concretely, for
stoichiometry [-1, 1] and no inhibitors: the first call on an empty
registry creates class 0 and registers it under
`ConvenienceInhibited_<key>`; the second call with the same arguments
misses the lookup and creates the distinct class 1 instead of returning
class 0; and even on a registry that already maps the registered name
`ConvenienceInhibited_<key>` to class 7, a call still misses (it looks up
`Convenience_<key>`) and creates a fresh class. -/
theorem claim_C7_fresh_class_each_call :
    (make_convenience_with_inhibition [] [-1, 1] []).1 = 0 ∧
    (make_convenience_with_inhibition [] [-1, 1] []).2
      = [("ConvenienceInhibited" ++ "_" ++ stringify_stoichiometry [-1, 1] [], 0)] ∧
    (make_convenience_with_inhibition
      (make_convenience_with_inhibition [] [-1, 1] []).2 [-1, 1] []).1 = 1 ∧
    (make_convenience_with_inhibition
      [("ConvenienceInhibited" ++ "_" ++ stringify_stoichiometry [-1, 1] [], 7)]
      [-1, 1] []).1 = 1 := by
  refine ⟨rfl, rfl, ?_, ?_⟩ <;> decide

/-
Concrete scenario for claim C3: a model holding one reaction r1 (species A
with rate x), then a second reaction r2 (species B with rate y) added after
the first solve.
-/

/-- Claim C3 (code_bug evidence): the guard of solve_ode is
`self._modifed and not(hasattr(self, 'ode_fun'))`, so in the concrete
scenario the first solve builds the ode_fun for r1, a second solve without
modification correctly reuses it, but after add_reaction(r2) the next solve
still hands the solver the stale ode_fun built from r1 alone, whose
variable list ["A"] lacks the new species B; a rebuild would produce the
different ode function over ["A", "B"].  The comment in the source (line
95, create the ode_fun if modified or non existent) describes the claimed
or-semantics that the code does not implement. -/
theorem claim_C3_stale_rhs :
    (modelC3.solve_ode .QSSA).2 = some odeC3 ∧
    ((modelC3.solve_ode .QSSA).1.solve_ode .QSSA).2 = some odeC3 ∧
    (modelC3.solve_ode .QSSA).1.add_reaction ("r2") rdC3b = .ok modelC3' ∧
    (modelC3'.solve_ode .QSSA).2 = some odeC3 ∧
    odeC3.1 = ["A"] ∧
    (buildOdeQssa [rdC3a.qssa, rdC3b.qssa] []).1 = ["A", "B"] := by
  exact ⟨rfl, rfl, rfl, rfl, by decide, by decide⟩

/-- Claim C4: after get_qssa_rate_expression has run, running
update_qssa_rate_expression with the stored v_net leaves self.expressions
equal (same keys, same expression at every key) to the dict
get_qssa_rate_expression produces from that same v_net.  For the Hill
mechanism the update re-assigns the identical three entries into the
existing dict, so every lookup is unchanged; for every generated
convenience mechanism the update either rebuilds the identical dict (at
least one product) or keeps the previous one (no products). -/
theorem claim_C4_update_consistent :
    (∀ (a : BiUniReversibleHill.HillArgs) (k : String),
      alookup (BiUniReversibleHill.update_qssa_rate_expression a.s1 a.s2 a.p
          (BiUniReversibleHill.rate_expression a)
          (BiUniReversibleHill.get_qssa_rate_expression a).2) k =
        alookup (BiUniReversibleHill.get_qssa_rate_expression a).2 k) ∧
    (∀ (vmaxf keq : Expr) (subs prods : List ConvenienceInhibited.ConvReactant)
        (inhs : List ConvenienceInhibited.ConvInhibitor),
      ConvenienceInhibited.update_qssa_rate_expression subs prods
          (ConvenienceInhibited.rates vmaxf keq subs prods inhs).1
          (ConvenienceInhibited.get_qssa_rate_expression vmaxf keq subs prods inhs).2 =
        (ConvenienceInhibited.get_qssa_rate_expression vmaxf keq subs prods inhs).2) := by
  constructor
  · intro a k
    simp only [BiUniReversibleHill.get_qssa_rate_expression,
      BiUniReversibleHill.update_qssa_rate_expression,
      BiUniReversibleHill.expressions_from_rate]
    by_cases hp : a.p = k
    · subst hp
      rw [alookup_aset_self, alookup_aset_self]
    · rw [alookup_aset_of_ne _ _ _ _ hp, alookup_aset_of_ne _ _ _ _ hp]
      by_cases hs2 : a.s2 = k
      · subst hs2
        rw [alookup_aset_self, alookup_aset_self]
      · rw [alookup_aset_of_ne _ _ _ _ hs2, alookup_aset_of_ne _ _ _ _ hs2]
        by_cases hs1 : a.s1 = k
        · subst hs1
          rw [alookup_aset_self, alookup_aset_self]
        · rw [alookup_aset_of_ne _ _ _ _ hs1, alookup_aset_of_ne _ _ _ _ hs1,
            alookup_aset_of_ne _ _ _ _ hp, alookup_aset_of_ne _ _ _ _ hs2,
            alookup_aset_of_ne _ _ _ _ hs1]
  · intro vmaxf keq subs prods inhs
    cases prods with
    | nil =>
        simp [ConvenienceInhibited.update_qssa_rate_expression]
    | cons hd tl =>
        simp [ConvenienceInhibited.update_qssa_rate_expression,
          ConvenienceInhibited.get_qssa_rate_expression]

/-
Claim C5: a species symbol bound both to a substrate and to a product role.
-/

/-- Claim C5 counterexample: with substrate1 and product both bound to X,
the expressions entry the Hill mechanism stores for X evaluates to 5/4 (the
product contribution 1 * v_net alone, the product loop having overwritten
the substrate entry), while the claimed summed contribution
(-1 + 1) * v_net evaluates to 0. -/
theorem claim_C5_counterexample :
    evalAt (BiUniReversibleHill.get_qssa_rate_expression hillArgsC5).2 ("X") bindC5 = 5 / 4 ∧
    ((-1 : ℚ) + 1) * evalE (BiUniReversibleHill.rate_expression hillArgsC5) bindC5 = 0 ∧
    (0 : ℚ) < 5 / 4 := by
  have hlook : alookup (BiUniReversibleHill.get_qssa_rate_expression hillArgsC5).2 ("X")
      = some (.mul (.intC 1) (BiUniReversibleHill.rate_expression hillArgsC5)) := by decide
  have hX : bindC5 ("X") = 2 := by decide
  have hY : bindC5 ("Y") = 1 := by decide
  refine ⟨?_, by norm_num, by norm_num⟩
  simp only [evalAt, hlook]
  simp only [BiUniReversibleHill.rate_expression,
    BiUniReversibleHill.forward_rate_expression, BiUniReversibleHill.backward_rate_expression,
    BiUniReversibleHill.fwd_nominator, BiUniReversibleHill.bwd_nominator,
    BiUniReversibleHill.hill_effect, BiUniReversibleHill.common_denominator, hillArgsC5,
    evalE, hX, hY]
  norm_num

theorem akeys_map_sym (l : List ConvenienceInhibited.ConvReactant) (v : Expr) :
    akeys (l.map (fun r => (r.sym, Expr.mul (.ratC r.stoich) v)))
      = l.map ConvenienceInhibited.ConvReactant.sym := by
  simp [akeys, List.map_map]

theorem conv_expressions_eq (subs prods : List ConvenienceInhibited.ConvReactant) (v : Expr) :
    ConvenienceInhibited.expressions_from_rate subs prods v =
      insertAddList
        (insertAddList [] (subs.map (fun r => (r.sym, Expr.mul (.ratC r.stoich) v))))
        (prods.map (fun r => (r.sym, Expr.mul (.ratC r.stoich) v))) := by
  simp [ConvenienceInhibited.expressions_from_rate, insertAddList, List.foldl_map]

/-- In the convenience expressions dict, a species occurring exactly once
among the substrates (stoichiometry -a) and exactly once among the products
(stoichiometry b) ends with an entry that evaluates to the summed signed
contribution (-a + b) times the rate. -/
theorem conv_dual_role_entry (v : Expr) (x : String) (kmx kmpx : Expr) (a b : ℚ)
    (sL sR pL pR : List ConvenienceInhibited.ConvReactant) (ν : String → ℚ)
    (hxs : x ∉ (sL ++ sR).map ConvenienceInhibited.ConvReactant.sym)
    (hxp : x ∉ (pL ++ pR).map ConvenienceInhibited.ConvReactant.sym) :
    evalAt (ConvenienceInhibited.expressions_from_rate
        (sL ++ ⟨x, kmx, -a⟩ :: sR) (pL ++ ⟨x, kmpx, b⟩ :: pR) v) x ν
      = (-a + b) * evalE v ν := by
  rw [List.map_append, List.mem_append, not_or] at hxs hxp
  rw [conv_expressions_eq, List.map_append, List.map_cons, List.map_append, List.map_cons]
  rw [insertAddList_append, insertAddList_cons, insertAddList_append, insertAddList_cons]
  have h0 : alookup (insertAddList []
      (sL.map (fun r => (r.sym, Expr.mul (.ratC r.stoich) v)))) x = none := by
    rw [alookup_insertAddList_of_not_mem _ _ _ (by rw [akeys_map_sym]; exact hxs.1)]
    rfl
  have h1 : dictInsertAdd (insertAddList []
        (sL.map (fun r => (r.sym, Expr.mul (.ratC r.stoich) v)))) x
        (.mul (.ratC (-a)) v)
      = aset (insertAddList [] (sL.map (fun r => (r.sym, Expr.mul (.ratC r.stoich) v)))) x
        (.mul (.ratC (-a)) v) := by
    rw [dictInsertAdd, h0]
  simp only [h1]
  have h2 : alookup (insertAddList (aset (insertAddList []
        (sL.map (fun r => (r.sym, Expr.mul (.ratC r.stoich) v)))) x (.mul (.ratC (-a)) v))
        (sR.map (fun r => (r.sym, Expr.mul (.ratC r.stoich) v)))) x
      = some (.mul (.ratC (-a)) v) := by
    rw [alookup_insertAddList_of_not_mem _ _ _ (by rw [akeys_map_sym]; exact hxs.2),
      alookup_aset_self]
  have h3 : alookup (insertAddList (insertAddList (aset (insertAddList []
        (sL.map (fun r => (r.sym, Expr.mul (.ratC r.stoich) v)))) x (.mul (.ratC (-a)) v))
        (sR.map (fun r => (r.sym, Expr.mul (.ratC r.stoich) v))))
        (pL.map (fun r => (r.sym, Expr.mul (.ratC r.stoich) v)))) x
      = some (.mul (.ratC (-a)) v) := by
    rw [alookup_insertAddList_of_not_mem _ _ _ (by rw [akeys_map_sym]; exact hxp.1), h2]
  have h4 : dictInsertAdd (insertAddList (insertAddList (aset (insertAddList []
        (sL.map (fun r => (r.sym, Expr.mul (.ratC r.stoich) v)))) x (.mul (.ratC (-a)) v))
        (sR.map (fun r => (r.sym, Expr.mul (.ratC r.stoich) v))))
        (pL.map (fun r => (r.sym, Expr.mul (.ratC r.stoich) v)))) x (.mul (.ratC b) v)
      = aset (insertAddList (insertAddList (aset (insertAddList []
        (sL.map (fun r => (r.sym, Expr.mul (.ratC r.stoich) v)))) x (.mul (.ratC (-a)) v))
        (sR.map (fun r => (r.sym, Expr.mul (.ratC r.stoich) v))))
        (pL.map (fun r => (r.sym, Expr.mul (.ratC r.stoich) v)))) x
        (.add (.mul (.ratC (-a)) v) (.mul (.ratC b) v)) := by
    rw [dictInsertAdd, h3]
  simp only [h4]
  have h5 : alookup (insertAddList (aset (insertAddList (insertAddList (aset (insertAddList []
        (sL.map (fun r => (r.sym, Expr.mul (.ratC r.stoich) v)))) x (.mul (.ratC (-a)) v))
        (sR.map (fun r => (r.sym, Expr.mul (.ratC r.stoich) v))))
        (pL.map (fun r => (r.sym, Expr.mul (.ratC r.stoich) v)))) x
        (.add (.mul (.ratC (-a)) v) (.mul (.ratC b) v)))
        (pR.map (fun r => (r.sym, Expr.mul (.ratC r.stoich) v)))) x
      = some (.add (.mul (.ratC (-a)) v) (.mul (.ratC b) v)) := by
    rw [alookup_insertAddList_of_not_mem _ _ _ (by rw [akeys_map_sym]; exact hxp.2),
      alookup_aset_self]
  simp only [evalAt, h5, evalE]
  ring

/-- Claim C5 as amended: the summation invariant holds for every generated
convenience-with-inhibition mechanism (the accumulate branch sums both
signed contributions), while the reversible Hill mechanism always stores at
the product symbol exactly the product contribution 1 * v_net alone, its
plain dict assignment overwriting any substrate contribution bound to the
same symbol. -/
theorem claim_C5_contribution :
    (∀ (a : BiUniReversibleHill.HillArgs),
      alookup (BiUniReversibleHill.get_qssa_rate_expression a).2 a.p
        = some (.mul (.intC 1) (BiUniReversibleHill.rate_expression a))) ∧
    (∀ (vmaxf keq : Expr) (subs prods : List ConvenienceInhibited.ConvReactant)
        (inhs : List ConvenienceInhibited.ConvInhibitor) (x : String) (kmx kmpx : Expr)
        (a b : ℚ) (sL sR pL pR : List ConvenienceInhibited.ConvReactant) (ν : String → ℚ),
      subs = sL ++ ⟨x, kmx, -a⟩ :: sR →
      x ∉ (sL ++ sR).map ConvenienceInhibited.ConvReactant.sym →
      prods = pL ++ ⟨x, kmpx, b⟩ :: pR →
      x ∉ (pL ++ pR).map ConvenienceInhibited.ConvReactant.sym →
      evalAt (ConvenienceInhibited.get_qssa_rate_expression vmaxf keq subs prods inhs).2 x ν
        = (-a + b) * evalE (ConvenienceInhibited.rates vmaxf keq subs prods inhs).1 ν) := by
  constructor
  · intro a
    simp only [BiUniReversibleHill.get_qssa_rate_expression,
      BiUniReversibleHill.expressions_from_rate]
    exact alookup_aset_self _ _ _
  · intro vmaxf keq subs prods inhs x kmx kmpx a b sL sR pL pR ν hs hxs hp hxp
    subst hs
    subst hp
    simp only [ConvenienceInhibited.get_qssa_rate_expression]
    exact conv_dual_role_entry _ x kmx kmpx a b sL sR pL pR ν hxs hxp

/-- Witness for the amended claim C5 at the minimal concrete shape: one
substrate and one product both bound to species X, stoichiometries -1 and
1, evaluated at the all-ones binding. -/
theorem claim_C5_contribution_witness :
    (([⟨"X", Expr.intC 1, -1⟩] : List ConvenienceInhibited.ConvReactant)
        = [] ++ ⟨"X", Expr.intC 1, -(1 : ℚ)⟩ :: []) ∧
    (("X" : String) ∉
      (([] ++ [] : List ConvenienceInhibited.ConvReactant)).map
        ConvenienceInhibited.ConvReactant.sym) ∧
    (([⟨"X", Expr.intC 1, 1⟩] : List ConvenienceInhibited.ConvReactant)
        = [] ++ ⟨"X", Expr.intC 1, (1 : ℚ)⟩ :: []) ∧
    evalAt (ConvenienceInhibited.get_qssa_rate_expression (.intC 1) (.intC 1)
        [⟨"X", Expr.intC 1, -1⟩] [⟨"X", Expr.intC 1, 1⟩] []).2 ("X") (fun _ => 1)
      = (-(1 : ℚ) + 1) * evalE (ConvenienceInhibited.rates (.intC 1) (.intC 1)
        [⟨"X", Expr.intC 1, -1⟩] [⟨"X", Expr.intC 1, 1⟩] []).1 (fun _ => 1) :=
  ⟨rfl, by simp, rfl,
   claim_C5_contribution.2 (.intC 1) (.intC 1)
     [⟨"X", Expr.intC 1, -1⟩] [⟨"X", Expr.intC 1, 1⟩] [] ("X")
     (.intC 1) (.intC 1) 1 1 [] [] [] [] (fun _ => 1) rfl (by simp) rfl (by simp)⟩

/-
Claim C2: the mass-balance aggregation of make_ode_fun.
-/

theorem alookup_const_map (vars : List String) (s : String) (c : Expr) (h : s ∈ vars) :
    alookup (vars.map (fun k => (k, c))) s = some c := by
  induction vars with
  | nil => simp at h
  | cons a tl ih =>
      rw [List.mem_cons] at h
      by_cases ha : a = s
      · simp [alookup, ha]
      · rcases h with h | h
        · exact absurd h.symm ha
        · simp [alookup, ha, ih h]

theorem akeys_const_map (vars : List String) (c : Expr) :
    akeys (vars.map (fun k => (k, c))) = vars := by
  induction vars with
  | nil => rfl
  | cons a tl ih => simp only [List.map_cons, akeys_cons, ih]

/-- Folding a list of reaction dicts into an accumulator with the
mass-balance loop: the entry of a key present in the accumulator ends as
its initial value plus the sum of the evaluated contributions of every
reaction dict binding that key. -/
theorem evalAt_fold_dicts (ds : List PyDict) (acc : PyDict) (s : String) (ν : String → ℚ)
    (hnd : ∀ d ∈ ds, (akeys d).Nodup) (hmem : s ∈ akeys acc) :
    s ∈ akeys (ds.foldl (fun a d => insertAddList a d) acc) ∧
    evalAt (ds.foldl (fun a d => insertAddList a d) acc) s ν
      = evalAt acc s ν
        + ((ds.filterMap (fun d => alookup d s)).map (fun e => evalE e ν)).sum := by
  induction ds generalizing acc with
  | nil => simpa using hmem
  | cons d tl ih =>
      simp only [List.foldl_cons]
      have hnd' : ∀ d' ∈ tl, (akeys d').Nodup :=
        fun d' hd' => hnd d' (List.mem_cons_of_mem _ hd')
      have hmem' : s ∈ akeys (insertAddList acc d) := mem_akeys_insertAddList d acc s hmem
      obtain ⟨m1, e1⟩ := ih (insertAddList acc d) hnd' hmem'
      refine ⟨m1, ?_⟩
      rw [e1, evalAt_insertAddList d acc s ν (hnd d (List.mem_cons_self _ _)) hmem]
      cases hl : alookup d s with
      | none => simp [List.filterMap_cons, hl]
      | some e =>
          simp only [List.filterMap_cons, hl, List.map_cons, List.sum_cons]
          ring

/-- Claim C2: for every species symbol occurring in the reactions, the
aggregated mapping built by make_ode_fun binds it to the sum of every
per-reaction signed contribution (seeded at 0.0, accumulated with +=,
never overwritten), and the ODE function is the boundary pipeline applied
to the finished aggregation. -/
theorem claim_C2_mass_balance (all_expr : List PyDict) (bs : List (PyDict → PyDict))
    (s : String) (ν : String → ℚ)
    (hnd : ∀ d ∈ all_expr, (akeys d).Nodup)
    (hs : s ∈ odeVariables all_expr) :
    (s ∈ akeys (aggregateExpressions all_expr) ∧
     evalAt (aggregateExpressions all_expr) s ν
       = ((all_expr.filterMap (fun d => alookup d s)).map (fun e => evalE e ν)).sum) ∧
    buildOdeQssa all_expr bs
      = (odeVariables all_expr, applyBoundaries bs (aggregateExpressions all_expr)) := by
  refine ⟨?_, rfl⟩
  simp only [aggregateExpressions]
  have hmem0 : s ∈ akeys ((odeVariables all_expr).map (fun k => (k, Expr.ratC 0))) := by
    rw [akeys_const_map]
    exact hs
  obtain ⟨hm, he⟩ := evalAt_fold_dicts all_expr _ s ν hnd hmem0
  refine ⟨hm, ?_⟩
  rw [he]
  have h0 : evalAt ((odeVariables all_expr).map (fun k => (k, Expr.ratC 0))) s ν = 0 := by
    simp [evalAt, alookup_const_map _ _ _ hs, evalE]
  rw [h0, zero_add]

/-- Witness for claim C2 at two concrete reactions sharing species A. -/
theorem claim_C2_mass_balance_witness :
    ((∀ d ∈ allExprC2, (akeys d).Nodup) ∧ ("A" : String) ∈ odeVariables allExprC2) ∧
    (("A" : String) ∈ akeys (aggregateExpressions allExprC2) ∧
     evalAt (aggregateExpressions allExprC2) ("A") (fun _ => 0)
       = ((allExprC2.filterMap (fun d => alookup d ("A"))).map
           (fun e => evalE e (fun _ => 0))).sum) := by
  have hnd : ∀ d ∈ allExprC2, (akeys d).Nodup := by decide
  have hsv : ("A" : String) ∈ odeVariables allExprC2 := by decide
  exact ⟨⟨hnd, hsv⟩, (claim_C2_mass_balance allExprC2 [] ("A") (fun _ => 0) hnd hsv).1⟩

/-
Claims C8 and C10: the integration loop.
-/

/-- Claim C8 counterexample: a completed run and a run that failed on its
only step return the identical (t_sol, y_sol) pair, so the value the python
function returns carries no flag with which the caller could distinguish
completion from early failure; only the solver object retained on the model
still knows (final.ok differs). -/
theorem claim_C8_counterexample :
    solve_ode_ret stepsC8ok (0, 10) [1] = solve_ode_ret stepsC8fail (0, 10) [1] ∧
    (solve_ode stepsC8ok (0, 10) [1]).final.ok = true ∧
    (solve_ode stepsC8fail (0, 10) [1]).final.ok = false := by
  refine ⟨?_, ?_, ?_⟩ <;>
    norm_num [solve_ode_ret, solve_ode, solve_ode_loop, stepsC8ok, stepsC8fail]

/-- Claim C8 as amended: when the loop is running (condition holds) and the
next integrate call fails, the loop records that failing step, consumes
nothing further, and returns the accumulated trajectory normally (no
exception path exists). -/
theorem claim_C8_stops_on_failure (t1 : ℚ) (s step : SolverState) (rest : List SolverState)
    (h1 : s.t ≤ t1) (h2 : s.ok = true) (h3 : step.ok = false) :
    solve_ode_loop t1 (step :: rest) s = ⟨[step.t], [step.y], step, true⟩ := by
  cases rest <;> simp [solve_ode_loop, h1, h2, h3]

/-- Witness for the amended claim C8: the loop on a concrete failing trace
with one further (never consumed) step. -/
theorem claim_C8_stops_on_failure_witness :
    ((0 : ℚ) ≤ 10 ∧ (⟨0, [1], true⟩ : SolverState).ok = true ∧
      (⟨5, [2], false⟩ : SolverState).ok = false) ∧
    solve_ode_loop 10 [⟨5, [2], false⟩, ⟨6, [3], true⟩] ⟨0, [1], true⟩
      = ⟨[5], [[2]], ⟨5, [2], false⟩, true⟩ :=
  ⟨⟨by norm_num, rfl, rfl⟩,
   claim_C8_stops_on_failure 10 ⟨0, [1], true⟩ ⟨5, [2], false⟩ [⟨6, [3], true⟩]
     (by norm_num) rfl rfl⟩

theorem solve_loop_len (t1 : ℚ) (steps : List SolverState) (s : SolverState) :
    (solve_ode_loop t1 steps s).t_sol.length = (solve_ode_loop t1 steps s).y_sol.length := by
  induction steps generalizing s with
  | nil => by_cases h : s.t ≤ t1 ∧ s.ok = true <;> simp [solve_ode_loop, h]
  | cons a tl ih => by_cases h : s.t ≤ t1 ∧ s.ok = true <;> simp [solve_ode_loop, h, ih]

theorem solve_loop_final_t (t1 : ℚ) (steps : List SolverState) (s : SolverState) :
    (solve_ode_loop t1 steps s).t_sol.getLastD s.t = (solve_ode_loop t1 steps s).final.t := by
  induction steps generalizing s with
  | nil => by_cases h : s.t ≤ t1 ∧ s.ok = true <;> simp [solve_ode_loop, h]
  | cons a tl ih =>
      by_cases h : s.t ≤ t1 ∧ s.ok = true
      · simp only [solve_ode_loop, if_pos h]
        rw [List.getLastD_cons]
        exact ih a
      · simp [solve_ode_loop, h]

theorem solve_loop_cond (t1 : ℚ) (steps : List SolverState) (s : SolverState)
    (h : (solve_ode_loop t1 steps s).cond_stop = true) :
    ¬((solve_ode_loop t1 steps s).final.t ≤ t1
       ∧ (solve_ode_loop t1 steps s).final.ok = true) := by
  induction steps generalizing s with
  | nil =>
      by_cases hc : s.t ≤ t1 ∧ s.ok = true
      · simp [solve_ode_loop, hc] at h
      · simp [solve_ode_loop, hc]
  | cons a tl ih =>
      by_cases hc : s.t ≤ t1 ∧ s.ok = true
      · simp only [solve_ode_loop, if_pos hc] at h ⊢
        exact ih a h
      · simp [solve_ode_loop, hc]

theorem getLast?_cons_getLastD (a : ℚ) (l : List ℚ) :
    (a :: l).getLast? = some (l.getLastD a) := by
  induction l generalizing a with
  | nil => rfl
  | cons b tl ih => rw [List.getLast?_cons_cons, ih b, List.getLastD_cons]

/-- Claim C10: t_sol and y_sol always have equal length and start at
time_int[0] and the initial concentrations; and whenever the loop exits
through its own condition with the solver still successful, the last
recorded time strictly exceeds time_int[1]. -/
theorem claim_C10_trajectory (steps : List SolverState) (time_int : ℚ × ℚ)
    (y0 : List ℚ) :
    (solve_ode steps time_int y0).t_sol.length
        = (solve_ode steps time_int y0).y_sol.length ∧
    (solve_ode steps time_int y0).t_sol.head? = some time_int.1 ∧
    (solve_ode steps time_int y0).y_sol.head? = some y0 ∧
    ((solve_ode steps time_int y0).cond_stop = true →
      (solve_ode steps time_int y0).final.ok = true →
      (solve_ode steps time_int y0).t_sol.getLast?
          = some (solve_ode steps time_int y0).final.t ∧
      time_int.2 < (solve_ode steps time_int y0).final.t) := by
  simp only [solve_ode]
  refine ⟨?_, rfl, rfl, fun hcs hok => ⟨?_, ?_⟩⟩
  · simp [solve_loop_len]
  · rw [getLast?_cons_getLastD]
    exact congrArg some (solve_loop_final_t time_int.2 steps ⟨time_int.1, y0, true⟩)
  · have hcond := solve_loop_cond time_int.2 steps ⟨time_int.1, y0, true⟩ hcs
    by_contra hlt
    push_neg at hlt
    exact hcond ⟨hlt, hok⟩

/-- Witness for claim C10 on a concrete successful trace crossing the end
time. -/
theorem claim_C10_trajectory_witness :
    (solve_ode [⟨11, [2], true⟩] (0, 10) [1]).cond_stop = true ∧
    (solve_ode [⟨11, [2], true⟩] (0, 10) [1]).final.ok = true ∧
    ((solve_ode [⟨11, [2], true⟩] (0, 10) [1]).t_sol.getLast?
        = some (solve_ode [⟨11, [2], true⟩] (0, 10) [1]).final.t ∧
      ((0 : ℚ), (10 : ℚ)).2 < (solve_ode [⟨11, [2], true⟩] (0, 10) [1]).final.t) := by
  have hcs : (solve_ode [⟨11, [2], true⟩] ((0 : ℚ), (10 : ℚ)) [1]).cond_stop = true := by
    norm_num [solve_ode, solve_ode_loop]
  have hok : (solve_ode [⟨11, [2], true⟩] ((0 : ℚ), (10 : ℚ)) [1]).final.ok = true := by
    norm_num [solve_ode, solve_ode_loop]
  exact ⟨hcs, hok, (claim_C10_trajectory [⟨11, [2], true⟩] (0, 10) [1]).2.2.2 hcs hok⟩

